import Mathlib

/-
  Verification of the prow gcs path and build discovery module
  (vendor/github.com/knative/test-infra/shared/prow/prow.go).

  Strings are modelled by Lean String values; the path helpers from
  the Go standard library used by the module (path.Join, path.Clean,
  path.Split, strings.TrimRight, strings.TrimSuffix, strings.Fields,
  strconv.Itoa, strconv.Atoi) are embedded below at the level of
  character lists.  Machine integers (Go int and int64) are modelled
  as Int; no verified property involves values near the overflow
  boundary, so wrap around is not modelled.  The storage collaborator
  (the shared/gcs package, which is not under src/) and json decoding
  are modelled from the spec, section 6, as an explicit World value.
-/

namespace Prow

deriving instance DecidableEq for Except

/-- Splits a character list at every slash, mirroring the segment
structure consumed by Go path.Clean: n slashes produce n plus one
(possibly empty) segments. -/
def splitOnSlash : List Char → List (List Char)
  | [] => [[]]
  | c :: cs =>
    if c = '/' then [] :: splitOnSlash cs
    else
      match splitOnSlash cs with
      | [] => [[c]]
      | p :: ps => (c :: p) :: ps

/-- Appends segments, each preceded by one slash. -/
def joinTail : List (List Char) → List Char
  | [] => []
  | s :: ss => '/' :: s ++ joinTail ss

/-- Joins segments with single slashes; on slash free nonempty
segments this is the inverse of splitOnSlash. -/
def joinSegs : List (List Char) → List Char
  | [] => []
  | s :: ss => s ++ joinTail ss

/-- Core of Go path.Clean over the slash separated segments.  out
holds the emitted segments in reverse order; empty and dot segments
are dropped; a dotdot segment pops the latest real segment, is
dropped at the root of a rooted path, and is kept in an unrooted path
when there is nothing left to pop. -/
def cleanStack (rooted : Bool) (out : List (List Char)) : List (List Char) → List (List Char)
  | [] => out.reverse
  | s :: rest =>
    if s = [] ∨ s = ['.'] then cleanStack rooted out rest
    else if s = ['.', '.'] then
      match out with
      | [] =>
        if rooted then cleanStack rooted [] rest
        else cleanStack rooted [['.', '.']] rest
      | t :: ts =>
        if t = ['.', '.'] then cleanStack rooted (['.', '.'] :: t :: ts) rest
        else cleanStack rooted ts rest
    else cleanStack rooted (s :: out) rest

/-- Tests whether a path starts with a slash. -/
def isRooted : List Char → Bool
  | [] => false
  | c :: _ => c == '/'

/-- Go path.Clean on a character list. -/
def goCleanChars (p : List Char) : List Char :=
  if p = [] then ['.']
  else
    let rooted := isRooted p
    let body := joinSegs (cleanStack rooted [] (splitOnSlash p))
    if rooted then '/' :: body
    else if body = [] then ['.'] else body

/-- Go path.Join: concatenates the elements with slashes, skipping
elements while the buffer is still empty and they are empty, then
cleans the result; when everything is empty the result is the empty
string and Clean is not applied. -/
def goJoin (elems : List String) : String :=
  if elems.foldl (fun buf e => if buf = [] then e.data else buf ++ '/' :: e.data) [] = []
  then ""
  else ⟨goCleanChars (elems.foldl (fun buf e => if buf = [] then e.data else buf ++ '/' :: e.data) [])⟩

/-- Decimal digit characters; strconv.Itoa writes the digit d as the
character with code 48 plus d. -/
def digitChar : Nat → Char
  | 0 => '0'
  | 1 => '1'
  | 2 => '2'
  | 3 => '3'
  | 4 => '4'
  | 5 => '5'
  | 6 => '6'
  | 7 => '7'
  | 8 => '8'
  | _ => '9'

/-- Decimal rendering of a natural number, with explicit fuel so that
the definition is structurally recursive and reduces in the kernel. -/
def natDecCharsAux : Nat → Nat → List Char
  | 0, _ => []
  | fuel + 1, n =>
    if n < 10 then [digitChar n]
    else natDecCharsAux fuel (n / 10) ++ [digitChar (n % 10)]

/-- Decimal rendering of a natural number. -/
def natDecChars (n : Nat) : List Char :=
  natDecCharsAux (n + 1) n

/-- strconv.Itoa on a Go int. -/
def goItoa (i : Int) : String :=
  if i < 0 then ⟨'-' :: natDecChars (-i).toNat⟩ else ⟨natDecChars i.toNat⟩

/-- Numeric value of a list of decimal digit characters. -/
def digitsVal (l : List Char) : Nat :=
  l.foldl (fun a c => a * 10 + (c.toNat - 48)) 0

/-- strconv.Atoi: an optional sign followed by at least one decimal
digit; anything else is a syntax error.  Overflow of the 64 bit int
range is not modelled. -/
def goAtoi (s : String) : Except String Int :=
  match s.data with
  | [] => .error "invalid syntax"
  | c :: rest =>
    let digits := if c = '-' ∨ c = '+' then rest else c :: rest
    if digits = [] ∨ ¬ digits.all Char.isDigit then .error "invalid syntax"
    else if c = '-' then .ok (-(digitsVal digits : Int))
    else .ok (digitsVal digits)

/-- strings.TrimRight with the cutset consisting of space and slash. -/
def trimRightSpaceSlash (s : String) : String :=
  ⟨(s.data.reverse.dropWhile (fun c => c == ' ' || c == '/')).reverse⟩

/-- The file part of Go path.Split: everything after the final slash. -/
def lastComponent (s : String) : String :=
  ⟨(s.data.reverse.takeWhile (fun c => c != '/')).reverse⟩

/-- strings.TrimSuffix with the suffix being a single newline. -/
def trimNewlineSuffix (s : String) : String :=
  match s.data.reverse with
  | '\n' :: rest => ⟨rest.reverse⟩
  | _ => s

/-- White space recognised by strings.Fields, restricted to the Latin
one range of unicode.IsSpace; white space from higher planes is not
exercised by any claim and is not modelled. -/
def isGoSpace (c : Char) : Bool :=
  c.toNat == 9 || c.toNat == 10 || c.toNat == 11 || c.toNat == 12 ||
    c.toNat == 13 || c.toNat == 32 || c.toNat == 133 || c.toNat == 160

/-- Accumulator based splitter behind strings.Fields; acc holds the
current word in reverse. -/
def splitWsAux : List Char → List Char → List (List Char)
  | [], acc => if acc = [] then [] else [acc.reverse]
  | c :: cs, acc =>
    if isGoSpace c then
      if acc = [] then splitWsAux cs [] else acc.reverse :: splitWsAux cs []
    else splitWsAux cs (c :: acc)

/-- strings.Fields: splits around runs of white space, producing no
empty words. -/
def goFields (s : String) : List String :=
  (splitWsAux s.data []).map (fun w => ⟨w⟩)

/-- Name of the knative org. -/
def OrgName : String := "knative"

/-- The gcs bucket for all knative builds. -/
def BucketName : String := "knative-prow"

/-- Filename storing the latest build number. -/
def Latest : String := "latest-build.txt"

/-- Filename for the build log. -/
def BuildLog : String := "build-log.txt"

/-- Json file containing build started info. -/
def StartedJSON : String := "started.json"

/-- Json file containing build finished info. -/
def FinishedJSON : String := "finished.json"

/-- Directory containing artifacts. -/
def ArtifactsDir : String := "artifacts"

/-- Job type that runs on unmerged PRs. -/
def PresubmitJob : String := "presubmit"

/-- Job type that runs on each new commit. -/
def PostsubmitJob : String := "postsubmit"

/-- Job type that runs on a time basis, unrelated to git changes. -/
def PeriodicJob : String := "periodic"

/-- Job type that tests multiple unmerged PRs at the same time. -/
def BatchJob : String := "batch"

/-- Build points to a build stored under a particular gcs path. -/
structure Build where
  JobName : String
  StoragePath : String
  BuildID : Int
  Bucket : String
  deriving DecidableEq

/-- Job represents a job directory in gcs; the storage path is
derived from the type when the type is a known one.  The Go field
named Type is called JobType here because Type is reserved in Lean. -/
structure Job where
  Name : String
  JobType : String
  Bucket : String
  Repo : String
  StoragePath : String
  PullID : Int
  Builds : List Build
  deriving DecidableEq

/-- Started holds the started.json values of the build; the repos map
is modelled as an association list. -/
structure Started where
  Timestamp : Int
  RepoVersion : String
  Node : String
  Pull : String
  Repos : List (String × String)
  deriving DecidableEq

/-- Finished holds the finished.json values of the build; the open
ended metadata map is modelled as an association list of strings. -/
structure Finished where
  Timestamp : Int
  Passed : Bool
  JobVersion : String
  Metadata : List (String × String)
  deriving DecidableEq

/-- Modelled from the spec: the streaming reader obtained from the
storage collaborator (the shared/gcs package is not under src/); it
delivers a sequence of complete lines and then either end of stream
or a mid stream read error.  Per the spec, section 4.5, releasing the
reader is safe on every path, including after a failed open. -/
structure GcsReader where
  lines : List String
  readErr : Option String
  deriving DecidableEq

/-- Modelled from the spec: the storage collaborator contract of
section 6 (the shared/gcs package and encoding/json are not under
src/).  exist, listDirectChildren, read and newReader are the blob
store operations; decodeStarted and decodeFinished stand for
json.Unmarshal into the two marker schemas. -/
structure World where
  exist : String → String → Bool
  listDirectChildren : String → String → List String
  read : String → String → Except String String
  newReader : String → String → Except String GcsReader
  decodeStarted : String → Except String Started
  decodeFinished : String → Except String Finished

/-- Replaces the contents served by read at one path, leaving every
other object unchanged. -/
def World.overrideRead (w : World) (p : String) (r : Except String String) : World :=
  { w with read := fun bucket q => if q = p then r else w.read bucket q }

/-- NewJob creates a new job struct; pullID is only saved by
Presubmit jobs for determining the storage path.  The default branch
of the switch invokes the fatal hook (log.Fatalf, which terminates
the process), modelled as an error result: no Job value reaches the
caller on that branch. -/
def NewJob (jobName jobType repoName : String) (pullID : Int) : Except String Job :=
  if jobType = PeriodicJob ∨ jobType = PostsubmitJob then
    .ok { Name := jobName, JobType := jobType, Bucket := BucketName, Repo := "",
          StoragePath := goJoin ["logs", jobName], PullID := 0, Builds := [] }
  else if jobType = PresubmitJob then
    .ok { Name := jobName, JobType := jobType, Bucket := BucketName, Repo := "",
          StoragePath :=
            goJoin ["pr-logs", "pull", OrgName ++ "_" ++ repoName, goItoa pullID, jobName],
          PullID := pullID, Builds := [] }
  else if jobType = BatchJob then
    .ok { Name := jobName, JobType := jobType, Bucket := BucketName, Repo := "",
          StoragePath := goJoin ["pr-logs", "pull", "batch", jobName], PullID := 0, Builds := [] }
  else .error ("unknown job spec type: " ++ jobType)

/-- NewBuild creates a new build struct from explicit parts. -/
def NewBuild (jobName storagePath : String) (buildID : Int) : Build :=
  { Bucket := BucketName, JobName := jobName,
    StoragePath := storagePath, BuildID := buildID }

/-- NewBuild on a job derives the build storage path by joining the
job storage path with the decimal rendering of the build id.  No gcs
operation is performed. -/
def Job.NewBuild (j : Job) (buildID : Int) : Build :=
  { Bucket := BucketName, JobName := j.Name,
    StoragePath := goJoin [j.StoragePath, goItoa buildID], BuildID := buildID }

/-- GetLatestBuildNumber reads the latest build marker under the job
storage path and parses it after stripping one trailing newline. -/
def Job.GetLatestBuildNumber (j : Job) (w : World) : Except String Int :=
  match w.read BucketName (goJoin [j.StoragePath, Latest]) with
  | .error e => .error e
  | .ok contents => goAtoi (trimNewlineSuffix contents)

/-- The Go accumulation pattern: a loop over l appending one output
element whenever g yields one. -/
def appendLoop (g : α → Option β) (l : List α) : List β :=
  l.foldl (fun acc x => match g x with | some y => acc ++ [y] | none => acc) []

/-- Digests a gcs build path: the last portion of the path, after
trailing spaces and slashes are trimmed, parsed as an int. -/
def getBuildIDFromBuildPath (buildPath : String) : Except String Int :=
  goAtoi (lastComponent (trimRightSpaceSlash buildPath))

/-- GetBuilds lists the direct children of the job storage path and
keeps one build per child whose digested id parses; children that do
not parse are skipped without error. -/
def Job.GetBuilds (j : Job) (w : World) : List Build :=
  appendLoop
    (fun p =>
      match getBuildIDFromBuildPath p with
      | .error _ => none
      | .ok buildID => some (j.NewBuild buildID))
    (w.listDirectChildren j.Bucket j.StoragePath)

/-- IsStarted checks whether the started marker object exists. -/
def Build.IsStarted (b : Build) (w : World) : Bool :=
  w.exist BucketName (goJoin [b.StoragePath, StartedJSON])

/-- IsFinished checks whether the finished marker object exists. -/
def Build.IsFinished (b : Build) (w : World) : Bool :=
  w.exist BucketName (goJoin [b.StoragePath, FinishedJSON])

/-- GetFinishedBuilds keeps the builds whose finished marker
exists. -/
def Job.GetFinishedBuilds (j : Job) (w : World) : List Build :=
  (j.GetBuilds w).filter (fun b => b.IsFinished w)

/-- The object read by GetStartedTime; the source passes FinishedJSON,
not StartedJSON, to path.Join here. -/
def Build.getStartedTimeReadPath (b : Build) : String :=
  goJoin [b.StoragePath, FinishedJSON]

/-- The object read by GetFinishedTime. -/
def Build.getFinishedTimeReadPath (b : Build) : String :=
  goJoin [b.StoragePath, FinishedJSON]

/-- unmarshalJSONFile instantiated at the Started schema: reads the
object and decodes the contents. -/
def unmarshalJSONStarted (w : World) (storagePath : String) : Except String Started :=
  match w.read BucketName storagePath with
  | .error e => .error e
  | .ok contents => w.decodeStarted contents

/-- unmarshalJSONFile instantiated at the Finished schema. -/
def unmarshalJSONFinished (w : World) (storagePath : String) : Except String Finished :=
  match w.read BucketName storagePath with
  | .error e => .error e
  | .ok contents => w.decodeFinished contents

/-- GetStartedTime returns the started timestamp of a build, and the
sentinel value minus one together with the error when the timestamp
could not be obtained. -/
def Build.GetStartedTime (b : Build) (w : World) : Int × Option String :=
  match unmarshalJSONStarted w b.getStartedTimeReadPath with
  | .error e => (-1, some e)
  | .ok started => (started.Timestamp, none)

/-- GetFinishedTime returns the finished timestamp of a build, and
the sentinel value minus one together with the error when the
timestamp could not be obtained. -/
def Build.GetFinishedTime (b : Build) (w : World) : Int × Option String :=
  match unmarshalJSONFinished w b.getFinishedTimeReadPath with
  | .error e => (-1, some e)
  | .ok finished => (finished.Timestamp, none)

/-- The comparison closure passed to sort.Slice by GetLatestBuilds:
false when the left timestamp could not be obtained, else true when
the right timestamp could not be obtained, else strict descending
comparison of the timestamps. -/
def buildLess (w : World) (a b : Build) : Bool :=
  if (a.GetStartedTime w).2 ≠ none then false
  else if (b.GetStartedTime w).2 ≠ none then true
  else decide ((a.GetStartedTime w).1 > (b.GetStartedTime w).1)

/-- GetLatestBuilds sorts the finished builds with the sort.Slice
comparison (sort.Slice is an unspecified comparison sort; it is
modelled as insertion sort over the induced non strict order) and
truncates to count builds.  The slice expression builds[:count]
faults for negative count, modelled as an error result. -/
def Job.GetLatestBuilds (j : Job) (w : World) (count : Int) : Except String (List Build) :=
  if ((((j.GetFinishedBuilds w).insertionSort
        (fun a b => buildLess w b a = false)).length : Int) < count) then
    .ok ((j.GetFinishedBuilds w).insertionSort (fun a b => buildLess w b a = false))
  else if count < 0 then .error "slice bounds out of range"
  else .ok (((j.GetFinishedBuilds w).insertionSort
    (fun a b => buildLess w b a = false)).take count.toNat)

/-- GetArtifactsDir is the gcs path for artifacts of the build. -/
def Build.GetArtifactsDir (b : Build) : String :=
  goJoin [b.StoragePath, ArtifactsDir]

/-- GetBuildLogPath is the gcs path of the build log of the build. -/
def Build.GetBuildLogPath (b : Build) : String :=
  goJoin [b.StoragePath, BuildLog]

/-- Result of ParseLog, together with the number of times the reader
was released (the deferred Close runs once on every return path). -/
structure ParseLogResult where
  logs : List String
  err : Option String
  closes : Nat
  deriving DecidableEq

/-- ParseLog opens a reader on the build log, scans it line by line
and keeps the non empty results of checkLog applied to the white
space tokenized line.  The scanner stops at end of stream or at a mid
stream read error, but the final return statement always reports no
error, so only the open error is ever surfaced.  The deferred Close
is registered before the open error check and runs exactly once on
every path. -/
def Build.ParseLog (b : Build) (w : World) (checkLog : List String → Option String) :
    ParseLogResult :=
  match w.newReader b.Bucket b.GetBuildLogPath with
  | .error e => { logs := [], err := some e, closes := 1 }
  | .ok f =>
    { logs := appendLoop (fun line => checkLog (goFields line)) f.lines,
      err := none, closes := 1 }

/-! Lemmas about the embedded path helpers. -/

/-- A valid path segment: nonempty, slash free, and not one of the
relative segments collapsed by path.Clean. -/
def ValidSegChars (s : List Char) : Prop :=
  s ≠ [] ∧ '/' ∉ s ∧ s ≠ ['.'] ∧ s ≠ ['.', '.']

/-- A string whose characters form a valid path segment. -/
def ValidSeg (s : String) : Prop :=
  ValidSegChars s.data

theorem splitOnSlash_no_slash (s : List Char) (h : '/' ∉ s) : splitOnSlash s = [s] := by
  induction s with
  | nil => rfl
  | cons c cs ih =>
    have hc : ¬ c = '/' := fun hc => h (hc ▸ List.mem_cons_self _ _)
    have hcs : '/' ∉ cs := fun hm => h (List.mem_cons_of_mem _ hm)
    simp [splitOnSlash, hc, ih hcs]

theorem splitOnSlash_append (s t : List Char) (h : '/' ∉ s) :
    splitOnSlash (s ++ '/' :: t) = s :: splitOnSlash t := by
  induction s with
  | nil => simp [splitOnSlash]
  | cons c cs ih =>
    have hc : ¬ c = '/' := fun hc => h (hc ▸ List.mem_cons_self _ _)
    have hcs : '/' ∉ cs := fun hm => h (List.mem_cons_of_mem _ hm)
    simp [splitOnSlash, hc, ih hcs]

theorem joinSegs_cons (a : List Char) (bs : List (List Char)) (h : bs ≠ []) :
    joinSegs (a :: bs) = a ++ '/' :: joinSegs bs := by
  cases bs with
  | nil => exact absurd rfl h
  | cons b bs2 => simp [joinSegs, joinTail]

theorem joinSegs_ne_nil (a : List Char) (bs : List (List Char)) (ha : a ≠ []) :
    joinSegs (a :: bs) ≠ [] := by
  cases a with
  | nil => exact absurd rfl ha
  | cons c a2 => simp [joinSegs]

theorem splitOnSlash_joinSegs (parts : List (List Char)) :
    parts ≠ [] → (∀ s ∈ parts, '/' ∉ s) → splitOnSlash (joinSegs parts) = parts := by
  induction parts with
  | nil => intro hne _; exact absurd rfl hne
  | cons a bs ih =>
    intro _ h
    cases bs with
    | nil => simpa [joinSegs, joinTail] using splitOnSlash_no_slash a (h a (by simp))
    | cons b bs2 =>
      rw [joinSegs_cons a (b :: bs2) (by simp)]
      rw [splitOnSlash_append _ _ (h a (by simp))]
      rw [ih (by simp) (fun s hs => h s (List.mem_cons_of_mem _ hs))]

theorem cleanStack_valid (rooted : Bool) (parts : List (List Char)) :
    (∀ s ∈ parts, ValidSegChars s) →
    ∀ out, cleanStack rooted out parts = out.reverse ++ parts := by
  induction parts with
  | nil => intro _ out; simp [cleanStack]
  | cons s rest ih =>
    intro h out
    obtain ⟨h1, _, h3, h4⟩ := h s (by simp)
    have hrest : ∀ x ∈ rest, ValidSegChars x := fun x hx => h x (List.mem_cons_of_mem _ hx)
    simp [cleanStack, h1, h3, h4, ih hrest]

theorem isRooted_joinSegs (a : List Char) (bs : List (List Char))
    (ha : a ≠ []) (hs : '/' ∉ a) : isRooted (joinSegs (a :: bs)) = false := by
  cases a with
  | nil => exact absurd rfl ha
  | cons c a2 =>
    have hc : ¬ c = '/' := fun hc => hs (hc ▸ List.mem_cons_self _ _)
    simp [joinSegs, isRooted, hc]

theorem goCleanChars_joinSegs (parts : List (List Char)) (hne : parts ≠ [])
    (hv : ∀ s ∈ parts, ValidSegChars s) :
    goCleanChars (joinSegs parts) = joinSegs parts := by
  cases parts with
  | nil => exact absurd rfl hne
  | cons a bs =>
    obtain ⟨h1, h2, _, _⟩ := hv a (by simp)
    have hslash : ∀ s ∈ a :: bs, '/' ∉ s := fun s hs => (hv s hs).2.1
    have hnil : joinSegs (a :: bs) ≠ [] := joinSegs_ne_nil a bs h1
    have hroot : isRooted (joinSegs (a :: bs)) = false := isRooted_joinSegs a bs h1 h2
    have hsplit : splitOnSlash (joinSegs (a :: bs)) = a :: bs :=
      splitOnSlash_joinSegs _ (by simp) hslash
    have hclean : cleanStack false [] (a :: bs) = a :: bs := by
      simpa using cleanStack_valid false (a :: bs) hv []
    simp [goCleanChars, hnil, hroot, hsplit, hclean, hnil]

theorem foldl_join (elems : List String) :
    ∀ buf : List Char, buf ≠ [] →
      elems.foldl (fun buf e => if buf = [] then e.data else buf ++ '/' :: e.data) buf =
        buf ++ joinTail (elems.map String.data) := by
  induction elems with
  | nil => intro buf _; simp [joinTail]
  | cons e es ih =>
    intro buf hb
    simp only [List.foldl_cons]
    rw [if_neg hb]
    rw [ih (buf ++ '/' :: e.data) (by simp)]
    simp [joinTail, List.append_assoc]

theorem goJoin_valid (elems : List String) (hne : elems ≠ [])
    (hv : ∀ e ∈ elems, ValidSegChars e.data) :
    goJoin elems = ⟨joinSegs (elems.map String.data)⟩ := by
  cases elems with
  | nil => exact absurd rfl hne
  | cons e es =>
    have h1 : e.data ≠ [] := (hv e (by simp)).1
    have hbuf :
        (e :: es).foldl (fun buf x => if buf = [] then x.data else buf ++ '/' :: x.data) [] =
          joinSegs ((e :: es).map String.data) := by
      have h0 :
          (e :: es).foldl (fun buf x => if buf = [] then x.data else buf ++ '/' :: x.data) [] =
            es.foldl (fun buf x => if buf = [] then x.data else buf ++ '/' :: x.data) e.data := by
        simp
      rw [h0, foldl_join es e.data h1]
      simp [joinSegs]
    have hvm : ∀ s ∈ (e :: es).map String.data, ValidSegChars s := by
      intro s hs
      obtain ⟨x, hx, rfl⟩ := List.mem_map.mp hs
      exact hv x hx
    unfold goJoin
    rw [hbuf]
    rw [if_neg (show ¬ joinSegs ((e :: es).map String.data) = [] from
      joinSegs_ne_nil e.data (es.map String.data) h1)]
    rw [goCleanChars_joinSegs _ (by simp) hvm]

theorem joinTail_append_single (ss : List (List Char)) (x : List Char) :
    joinTail (ss ++ [x]) = joinTail ss ++ '/' :: x := by
  induction ss with
  | nil => simp [joinTail]
  | cons s ss2 ih => simp [joinTail, ih, List.append_assoc]

theorem joinSegs_append_single (parts : List (List Char)) (x : List Char) (h : parts ≠ []) :
    joinSegs (parts ++ [x]) = joinSegs parts ++ '/' :: x := by
  cases parts with
  | nil => exact absurd rfl h
  | cons a bs => simp [joinSegs, joinTail_append_single, List.append_assoc]

theorem goJoin_mk_seg (parts : List (List Char)) (hne : parts ≠ [])
    (hv : ∀ s ∈ parts, ValidSegChars s) (t : String) (ht : ValidSegChars t.data) :
    goJoin [⟨joinSegs parts⟩, t] = ⟨joinSegs (parts ++ [t.data])⟩ := by
  cases parts with
  | nil => exact absurd rfl hne
  | cons a bs =>
    have h1 : a ≠ [] := (hv a (by simp)).1
    have hnil : joinSegs (a :: bs) ≠ [] := joinSegs_ne_nil a bs h1
    have hv2 : ∀ s ∈ (a :: bs) ++ [t.data], ValidSegChars s := by
      intro s hs
      rcases List.mem_append.mp hs with hs | hs
      · exact hv s hs
      · simp at hs
        exact hs ▸ ht
    have hnil2 : joinSegs ((a :: bs) ++ [t.data]) ≠ [] :=
      joinSegs_ne_nil a (bs ++ [t.data]) h1
    have hstep : ([⟨joinSegs (a :: bs)⟩, t] : List String).foldl
        (fun buf e => if buf = [] then e.data else buf ++ '/' :: e.data) [] =
        joinSegs ((a :: bs) ++ [t.data]) := by
      simp [hnil]
      rw [← List.cons_append, joinSegs_append_single (a :: bs) t.data (by simp)]
    unfold goJoin
    rw [hstep]
    rw [if_neg hnil2]
    rw [goCleanChars_joinSegs _ (by simp) hv2]

instance (s : List Char) : Decidable (ValidSegChars s) := by
  unfold ValidSegChars
  infer_instance

instance (s : String) : Decidable (ValidSeg s) := by
  unfold ValidSeg
  infer_instance

theorem digitChar_isDigit (k : Nat) : (digitChar k).isDigit = true := by
  unfold digitChar
  split <;> decide

theorem digitChar_ne_zero (k : Nat) (hk : k ≠ 0) : digitChar k ≠ '0' := by
  unfold digitChar
  split <;> first | (exact absurd rfl hk) | decide

theorem natDecCharsAux_spec :
    ∀ fuel n, n < fuel →
      natDecCharsAux fuel n ≠ [] ∧ ∀ c ∈ natDecCharsAux fuel n, c.isDigit = true := by
  intro fuel
  induction fuel with
  | zero => intro n h; omega
  | succ fuel ih =>
    intro n h
    by_cases h10 : n < 10
    · simp [natDecCharsAux, h10, digitChar_isDigit]
    · have hd : n / 10 < fuel := by omega
      obtain ⟨ih1, ih2⟩ := ih (n / 10) hd
      constructor
      · simp [natDecCharsAux, h10]
      · intro c hc
        simp only [natDecCharsAux, if_neg h10, List.mem_append, List.mem_singleton] at hc
        rcases hc with hc | hc
        · exact ih2 c hc
        · exact hc ▸ digitChar_isDigit _

theorem natDecCharsAux_head :
    ∀ fuel n, n < fuel → n ≠ 0 → (natDecCharsAux fuel n).head? ≠ some '0' := by
  intro fuel
  induction fuel with
  | zero => intro n h; omega
  | succ fuel ih =>
    intro n h hn
    by_cases h10 : n < 10
    · simp [natDecCharsAux, h10]
      exact digitChar_ne_zero n hn
    · have hne := (natDecCharsAux_spec fuel (n / 10) (by omega)).1
      cases hcase : natDecCharsAux fuel (n / 10) with
      | nil => exact absurd hcase hne
      | cons c rest =>
        have hh := ih (n / 10) (by omega) (by omega)
        rw [hcase] at hh
        simp only [natDecCharsAux, if_neg h10, hcase] at *
        simpa using hh

theorem natDecChars_ne_nil (n : Nat) : natDecChars n ≠ [] :=
  (natDecCharsAux_spec (n + 1) n (by omega)).1

theorem natDecChars_digits (n : Nat) : ∀ c ∈ natDecChars n, c.isDigit = true :=
  (natDecCharsAux_spec (n + 1) n (by omega)).2

theorem natDecChars_head (n : Nat) (hn : n ≠ 0) : (natDecChars n).head? ≠ some '0' :=
  natDecCharsAux_head (n + 1) n (by omega) hn

theorem goItoa_neg (i : Int) (h : i < 0) : goItoa i = ⟨'-' :: natDecChars (-i).toNat⟩ := by
  simp [goItoa, h]

theorem goItoa_nonneg (i : Int) (h : 0 ≤ i) : goItoa i = ⟨natDecChars i.toNat⟩ := by
  simp [goItoa, not_lt.mpr h]

theorem goItoa_valid (i : Int) : ValidSegChars (goItoa i).data := by
  by_cases hneg : i < 0
  · rw [goItoa_neg i hneg]
    show ValidSegChars ('-' :: natDecChars (-i).toNat)
    refine ⟨by simp, ?_, ?_, ?_⟩
    · intro hm
      rcases List.mem_cons.mp hm with hm | hm
      · exact absurd hm (by decide)
      · exact absurd (natDecChars_digits _ _ hm) (by decide)
    · intro heq
      injection heq with h1 _
      exact absurd h1 (by decide)
    · intro heq
      injection heq with h1 _
      exact absurd h1 (by decide)
  · rw [goItoa_nonneg i (by omega)]
    show ValidSegChars (natDecChars i.toNat)
    refine ⟨natDecChars_ne_nil _, ?_, ?_, ?_⟩
    · intro hm
      exact absurd (natDecChars_digits _ _ hm) (by decide)
    · intro heq
      have hm : '.' ∈ natDecChars i.toNat := by rw [heq]; simp
      exact absurd (natDecChars_digits _ _ hm) (by decide)
    · intro heq
      have hm : '.' ∈ natDecChars i.toNat := by rw [heq]; simp
      exact absurd (natDecChars_digits _ _ hm) (by decide)

theorem joinSegs_single (a : List Char) : joinSegs [a] = a := by
  simp [joinSegs, joinTail]

theorem mk_append_slash (a b : List Char) :
    (⟨a ++ '/' :: b⟩ : String) = (⟨a⟩ : String) ++ "/" ++ (⟨b⟩ : String) := by
  apply String.ext
  rw [String.data_append, String.data_append]
  rw [show ((⟨a⟩ : String)).data = a from rfl, show ((⟨b⟩ : String)).data = b from rfl]
  rw [show ("/" : String).data = ['/'] from rfl]
  simp

theorem mk_joinSegs_cons (x : String) (rest : List String) (hrest : rest ≠ []) :
    (⟨joinSegs ((x :: rest).map String.data)⟩ : String) =
      x ++ "/" ++ (⟨joinSegs (rest.map String.data)⟩ : String) := by
  rw [show (x :: rest).map String.data = x.data :: rest.map String.data from rfl]
  rw [joinSegs_cons x.data (rest.map String.data)
    (by cases rest with | nil => exact absurd rfl hrest | cons b bs => simp)]
  rw [mk_append_slash x.data (joinSegs (rest.map String.data))]

theorem goJoin_singleton (y : String) (hy : ValidSeg y) : goJoin [y] = y := by
  rw [goJoin_valid [y] (by simp) (by intro e he; simp at he; exact he ▸ hy)]
  rw [show List.map String.data [y] = [y.data] from rfl, joinSegs_single]

theorem goJoin_cons_valid (x : String) (rest : List String) (hne : rest ≠ [])
    (hv : ∀ e ∈ x :: rest, ValidSeg e) : goJoin (x :: rest) = x ++ "/" ++ goJoin rest := by
  rw [goJoin_valid (x :: rest) (by simp) hv]
  rw [mk_joinSegs_cons x rest hne]
  rw [goJoin_valid rest hne (fun e he => hv e (List.mem_cons_of_mem _ he))]

theorem validSeg_org (r : String) (hr : ValidSeg r) : ValidSeg (OrgName ++ "_" ++ r) := by
  obtain ⟨h1, h2, h3, h4⟩ := hr
  have hd : (OrgName ++ "_" ++ r).data = 'k' :: 'n' :: 'a' :: 't' :: 'i' :: 'v' :: 'e' :: '_' :: r.data := by
    rw [String.data_append (OrgName ++ "_") r,
      show (OrgName ++ "_").data = ['k', 'n', 'a', 't', 'i', 'v', 'e', '_'] from by decide]
    simp
  unfold ValidSeg ValidSegChars
  rw [hd]
  refine ⟨by simp, ?_, ?_, ?_⟩
  · intro hm
    simp only [List.mem_cons] at hm
    rcases hm with h | h | h | h | h | h | h | h | h
    all_goals first | (exact absurd h (by decide)) | (exact h2 h)
  · intro heq
    injection heq with ha _
    exact absurd ha (by decide)
  · intro heq
    injection heq with ha _
    exact absurd ha (by decide)

theorem newJob_periodic (jn rn : String) (p : Int) :
    NewJob jn PeriodicJob rn p = .ok
      { Name := jn, JobType := PeriodicJob, Bucket := BucketName, Repo := "",
        StoragePath := goJoin ["logs", jn], PullID := 0, Builds := [] } := by
  unfold NewJob
  rw [if_pos (by decide)]

theorem newJob_postsubmit (jn rn : String) (p : Int) :
    NewJob jn PostsubmitJob rn p = .ok
      { Name := jn, JobType := PostsubmitJob, Bucket := BucketName, Repo := "",
        StoragePath := goJoin ["logs", jn], PullID := 0, Builds := [] } := by
  unfold NewJob
  rw [if_pos (by decide)]

theorem newJob_presubmit (jn rn : String) (p : Int) :
    NewJob jn PresubmitJob rn p = .ok
      { Name := jn, JobType := PresubmitJob, Bucket := BucketName, Repo := "",
        StoragePath := goJoin ["pr-logs", "pull", OrgName ++ "_" ++ rn, goItoa p, jn],
        PullID := p, Builds := [] } := by
  unfold NewJob
  rw [if_neg (by decide), if_pos (by decide)]

theorem newJob_batch (jn rn : String) (p : Int) :
    NewJob jn BatchJob rn p = .ok
      { Name := jn, JobType := BatchJob, Bucket := BucketName, Repo := "",
        StoragePath := goJoin ["pr-logs", "pull", "batch", jn], PullID := 0, Builds := [] } := by
  unfold NewJob
  rw [if_neg (by decide), if_neg (by decide), if_pos (by decide)]

theorem goJoin_logs (n : String) (hn : ValidSeg n) : goJoin ["logs", n] = "logs/" ++ n := by
  rw [goJoin_cons_valid "logs" [n] (by simp)
    (by intro e he
        simp at he
        rcases he with rfl | rfl
        · decide
        · exact hn)]
  rw [goJoin_singleton n hn]
  rw [show ("logs" ++ "/" : String) = "logs/" from by decide]

theorem goJoin_batchPath (n : String) (hn : ValidSeg n) :
    goJoin ["pr-logs", "pull", "batch", n] = "pr-logs/pull/batch/" ++ n := by
  have hv : ∀ e ∈ ["pr-logs", "pull", "batch", n], ValidSeg e := by
    intro e he
    simp at he
    rcases he with rfl | rfl | rfl | rfl
    · decide
    · decide
    · decide
    · exact hn
  rw [goJoin_cons_valid "pr-logs" ["pull", "batch", n] (by simp) hv]
  rw [goJoin_cons_valid "pull" ["batch", n] (by simp)
    (fun e he => hv e (List.mem_cons_of_mem _ he))]
  rw [goJoin_cons_valid "batch" [n] (by simp)
    (fun e he => hv e (List.mem_cons_of_mem _ (List.mem_cons_of_mem _ he)))]
  rw [goJoin_singleton n hn]
  simp only [← String.append_assoc]
  rw [show ("pr-logs" ++ "/" ++ "pull" ++ "/" ++ "batch" ++ "/" : String) =
    "pr-logs/pull/batch/" from by decide]

theorem goJoin_presubmitPath (n r : String) (p : Int) (hn : ValidSeg n) (hr : ValidSeg r) :
    goJoin ["pr-logs", "pull", OrgName ++ "_" ++ r, goItoa p, n] =
      "pr-logs/pull/knative_" ++ r ++ "/" ++ goItoa p ++ "/" ++ n := by
  have hv : ∀ e ∈ ["pr-logs", "pull", OrgName ++ "_" ++ r, goItoa p, n], ValidSeg e := by
    intro e he
    simp at he
    rcases he with rfl | rfl | rfl | rfl | rfl
    · decide
    · decide
    · exact validSeg_org r hr
    · exact goItoa_valid p
    · exact hn
  rw [goJoin_cons_valid "pr-logs" _ (by simp) hv]
  rw [goJoin_cons_valid "pull" _ (by simp) (fun e he => hv e (List.mem_cons_of_mem _ he))]
  rw [goJoin_cons_valid (OrgName ++ "_" ++ r) _ (by simp)
    (fun e he => hv e (List.mem_cons_of_mem _ (List.mem_cons_of_mem _ he)))]
  rw [goJoin_cons_valid (goItoa p) [n] (by simp)
    (fun e he =>
      hv e (List.mem_cons_of_mem _ (List.mem_cons_of_mem _ (List.mem_cons_of_mem _ he))))]
  rw [goJoin_singleton n hn]
  simp only [← String.append_assoc]
  rw [show ("pr-logs" ++ "/" ++ "pull" ++ "/" ++ OrgName ++ "_" : String) =
    "pr-logs/pull/knative_" from by decide]

/-- Claim C1: for every valid job name, NewJob with type Periodic or
Postsubmit produces storage prefix logs/jobName; with type Presubmit and a
valid repo it produces pr-logs/pull/org_repo/pullID/jobName where org is the
fixed organization constant knative and pullID is the decimal rendering of
the supplied pull id, which is also stored on the Job; with type Batch it
produces pr-logs/pull/batch/jobName, independent of repo and pullID. -/
theorem claim_c1_newJob_prefixes (n r r2 : String) (p p2 : Int)
    (hn : ValidSeg n) (hr : ValidSeg r) :
    (∃ j, NewJob n PeriodicJob r p = .ok j ∧ j.StoragePath = "logs/" ++ n) ∧
    (∃ j, NewJob n PostsubmitJob r p = .ok j ∧ j.StoragePath = "logs/" ++ n) ∧
    (∃ j, NewJob n PresubmitJob r p = .ok j ∧
      j.StoragePath = "pr-logs/pull/knative_" ++ r ++ "/" ++ goItoa p ++ "/" ++ n ∧
      j.PullID = p) ∧
    (∃ j, NewJob n BatchJob r p = .ok j ∧ j.StoragePath = "pr-logs/pull/batch/" ++ n ∧
      NewJob n BatchJob r p = NewJob n BatchJob r2 p2) ∧
    OrgName = "knative" := by
  refine ⟨⟨_, newJob_periodic n r p, ?_⟩, ⟨_, newJob_postsubmit n r p, ?_⟩,
    ⟨_, newJob_presubmit n r p, ?_, rfl⟩, ⟨_, newJob_batch n r p, ?_, ?_⟩, rfl⟩
  · show goJoin ["logs", n] = "logs/" ++ n
    exact goJoin_logs n hn
  · show goJoin ["logs", n] = "logs/" ++ n
    exact goJoin_logs n hn
  · show goJoin ["pr-logs", "pull", OrgName ++ "_" ++ r, goItoa p, n] =
      "pr-logs/pull/knative_" ++ r ++ "/" ++ goItoa p ++ "/" ++ n
    exact goJoin_presubmitPath n r p hn hr
  · show goJoin ["pr-logs", "pull", "batch", n] = "pr-logs/pull/batch/" ++ n
    exact goJoin_batchPath n hn
  · rw [newJob_batch n r p, newJob_batch n r2 p2]

/-- Witness for C1 at concrete inputs. -/
theorem claim_c1_witness :
    (∃ j, NewJob "job" PeriodicJob "serving" 42 = .ok j ∧
      j.StoragePath = "logs/" ++ "job") ∧
    (∃ j, NewJob "job" PostsubmitJob "serving" 42 = .ok j ∧
      j.StoragePath = "logs/" ++ "job") ∧
    (∃ j, NewJob "job" PresubmitJob "serving" 42 = .ok j ∧
      j.StoragePath =
        "pr-logs/pull/knative_" ++ "serving" ++ "/" ++ goItoa 42 ++ "/" ++ "job" ∧
      j.PullID = 42) ∧
    (∃ j, NewJob "job" BatchJob "serving" 42 = .ok j ∧
      j.StoragePath = "pr-logs/pull/batch/" ++ "job" ∧
      NewJob "job" BatchJob "serving" 42 = NewJob "job" BatchJob "other" 7) ∧
    OrgName = "knative" :=
  claim_c1_newJob_prefixes "job" "serving" "other" 42 7 (by decide) (by decide)

/-- Claim C7: for every job type outside the four known ones, NewJob invokes
the fatal error hook (log.Fatalf, which terminates the process, modelled as
an error result) and produces no storage prefix: no Job value, in particular
none with an empty storage path, is handed to the caller. -/
theorem claim_c7_unknown_type_fatal (n t r : String) (p : Int)
    (h1 : t ≠ PresubmitJob) (h2 : t ≠ PostsubmitJob) (h3 : t ≠ PeriodicJob)
    (h4 : t ≠ BatchJob) :
    NewJob n t r p = .error ("unknown job spec type: " ++ t) ∧
    ∀ j, NewJob n t r p ≠ .ok j := by
  have he : NewJob n t r p = .error ("unknown job spec type: " ++ t) := by
    unfold NewJob
    rw [if_neg (by rintro (h | h)
                   · exact h3 h
                   · exact h2 h), if_neg h1, if_neg h4]
  refine ⟨he, fun j hj => ?_⟩
  rw [he] at hj
  exact Except.noConfusion hj

/-- Witness for C7 at a concrete unknown job type. -/
theorem claim_c7_witness :
    NewJob "job" "foo" "serving" 1 = .error ("unknown job spec type: " ++ "foo") ∧
    ∀ j, NewJob "job" "foo" "serving" 1 ≠ .ok j :=
  claim_c7_unknown_type_fatal "job" "foo" "serving" 1
    (by decide) (by decide) (by decide) (by decide)

theorem goJoin_two_of_parts (sp : String) (parts : List (List Char)) (hne : parts ≠ [])
    (hv : ∀ s ∈ parts, ValidSegChars s) (hsp : sp = ⟨joinSegs parts⟩) (t : String)
    (ht : ValidSegChars t.data) :
    goJoin [sp, t] = sp ++ "/" ++ t := by
  subst hsp
  rw [goJoin_mk_seg parts hne hv t ht]
  rw [joinSegs_append_single parts t.data hne]
  rw [mk_append_slash (joinSegs parts) t.data]

theorem newJob_storage_parts (n r t : String) (p : Int) (j : Job)
    (hn : ValidSeg n) (hr : ValidSeg r)
    (ht : t = PeriodicJob ∨ t = PostsubmitJob ∨ t = PresubmitJob ∨ t = BatchJob)
    (hj : NewJob n t r p = .ok j) :
    ∃ parts, parts ≠ [] ∧ (∀ s ∈ parts, ValidSegChars s) ∧
      j.StoragePath = ⟨joinSegs parts⟩ := by
  rcases ht with rfl | rfl | rfl | rfl
  · rw [newJob_periodic n r p] at hj
    injection hj with hj
    refine ⟨["logs".data, n.data], by simp, ?_, ?_⟩
    · intro s hs
      simp at hs
      rcases hs with rfl | rfl
      · decide
      · exact hn
    · rw [← hj]
      show goJoin ["logs", n] = _
      rw [goJoin_valid ["logs", n] (by simp)
        (by intro e he
            simp at he
            rcases he with rfl | rfl
            · decide
            · exact hn)]
      rfl
  · rw [newJob_postsubmit n r p] at hj
    injection hj with hj
    refine ⟨["logs".data, n.data], by simp, ?_, ?_⟩
    · intro s hs
      simp at hs
      rcases hs with rfl | rfl
      · decide
      · exact hn
    · rw [← hj]
      show goJoin ["logs", n] = _
      rw [goJoin_valid ["logs", n] (by simp)
        (by intro e he
            simp at he
            rcases he with rfl | rfl
            · decide
            · exact hn)]
      rfl
  · rw [newJob_presubmit n r p] at hj
    injection hj with hj
    refine ⟨["pr-logs".data, "pull".data, (OrgName ++ "_" ++ r).data, (goItoa p).data, n.data],
      by simp, ?_, ?_⟩
    · intro s hs
      simp at hs
      rcases hs with rfl | rfl | rfl | rfl | rfl
      · decide
      · decide
      · exact validSeg_org r hr
      · exact goItoa_valid p
      · exact hn
    · rw [← hj]
      show goJoin ["pr-logs", "pull", OrgName ++ "_" ++ r, goItoa p, n] = _
      rw [goJoin_valid _ (by simp)
        (by intro e he
            simp at he
            rcases he with rfl | rfl | rfl | rfl | rfl
            · decide
            · decide
            · exact validSeg_org r hr
            · exact goItoa_valid p
            · exact hn)]
      rfl
  · rw [newJob_batch n r p] at hj
    injection hj with hj
    refine ⟨["pr-logs".data, "pull".data, "batch".data, n.data], by simp, ?_, ?_⟩
    · intro s hs
      simp at hs
      rcases hs with rfl | rfl | rfl | rfl
      · decide
      · decide
      · decide
      · exact hn
    · rw [← hj]
      show goJoin ["pr-logs", "pull", "batch", n] = _
      rw [goJoin_valid _ (by simp)
        (by intro e he
            simp at he
            rcases he with rfl | rfl | rfl | rfl
            · decide
            · decide
            · decide
            · exact hn)]
      rfl

/-- Claim C9: for every job derived by NewJob from one of the four valid job
types (with valid name and repo segments) and every non negative build id,
the build returned by NewBuild on the job carries that id and its storage
path is the job storage path followed by a slash and the decimal rendering
of the id, which is nonempty, all digits, and has no leading zero. -/
theorem claim_c9_newBuild_roundtrip (n r t : String) (p : Int) (j : Job) (id : Int)
    (hn : ValidSeg n) (hr : ValidSeg r)
    (ht : t = PeriodicJob ∨ t = PostsubmitJob ∨ t = PresubmitJob ∨ t = BatchJob)
    (hj : NewJob n t r p = .ok j) (hid : 0 ≤ id) :
    (j.NewBuild id).BuildID = id ∧
    (j.NewBuild id).StoragePath = j.StoragePath ++ "/" ++ goItoa id ∧
    (goItoa id).data ≠ [] ∧ (∀ c ∈ (goItoa id).data, c.isDigit = true) ∧
    (id ≠ 0 → (goItoa id).data.head? ≠ some '0') := by
  obtain ⟨parts, hne, hv, hsp⟩ := newJob_storage_parts n r t p j hn hr ht hj
  refine ⟨rfl, ?_, ?_, ?_, ?_⟩
  · show goJoin [j.StoragePath, goItoa id] = j.StoragePath ++ "/" ++ goItoa id
    exact goJoin_two_of_parts j.StoragePath parts hne hv hsp (goItoa id) (goItoa_valid id)
  · rw [goItoa_nonneg id hid]
    exact natDecChars_ne_nil _
  · rw [goItoa_nonneg id hid]
    exact natDecChars_digits _
  · intro h0
    rw [goItoa_nonneg id hid]
    exact natDecChars_head _ (by omega)

/-- A concrete job value used by witnesses: the periodic job named job. -/
def jobW : Job :=
  { Name := "job", JobType := PeriodicJob, Bucket := BucketName, Repo := "",
    StoragePath := "logs/job", PullID := 0, Builds := [] }

/-- Witness for C9 at a concrete job and build id. -/
theorem claim_c9_witness :
    (jobW.NewBuild 35).BuildID = 35 ∧
    (jobW.NewBuild 35).StoragePath = jobW.StoragePath ++ "/" ++ goItoa 35 ∧
    (goItoa 35).data ≠ [] ∧ (∀ c ∈ (goItoa 35).data, c.isDigit = true) ∧
    ((35 : Int) ≠ 0 → (goItoa 35).data.head? ≠ some '0') :=
  claim_c9_newBuild_roundtrip "job" "serving" PeriodicJob 0 jobW 35
    (by decide) (by decide) (Or.inl rfl) (by decide) (by decide)

theorem appendLoop_acc (g : α → Option β) (l : List α) :
    ∀ acc : List β,
      l.foldl (fun acc x => match g x with | some y => acc ++ [y] | none => acc) acc =
        acc ++ l.filterMap g := by
  induction l with
  | nil => intro acc; simp
  | cons x xs ih =>
    intro acc
    simp only [List.foldl_cons, List.filterMap_cons]
    cases hx : g x with
    | none => simp only [hx]; rw [ih acc]
    | some y => simp only [hx]; rw [ih (acc ++ [y])]; simp

theorem appendLoop_eq_filterMap (g : α → Option β) (l : List α) :
    appendLoop g l = l.filterMap g := by
  simpa using appendLoop_acc g l []

/-- Claim C5: on every exit path of ParseLog the reader is released exactly
once and ParseLog returns normally; an open failure is returned immediately
as an error paired with an empty result sequence.  The safety of releasing
the reader obtained from a failed open is part of the collaborator contract
modelled from the spec. -/
theorem claim_c5_parseLog_release (w : World) (b : Build)
    (checkLog : List String → Option String) :
    (b.ParseLog w checkLog).closes = 1 ∧
    (∀ e, w.newReader b.Bucket b.GetBuildLogPath = .error e →
      b.ParseLog w checkLog = { logs := [], err := some e, closes := 1 }) := by
  constructor
  · unfold Build.ParseLog
    cases w.newReader b.Bucket b.GetBuildLogPath <;> rfl
  · intro e he
    unfold Build.ParseLog
    rw [he]

/-- A world in which every storage operation fails. -/
def worldOpenFail : World :=
  { exist := fun _ _ => false, listDirectChildren := fun _ _ => [],
    read := fun _ _ => .error "no such object",
    newReader := fun _ _ => .error "no such object",
    decodeStarted := fun _ => .error "bad json",
    decodeFinished := fun _ => .error "bad json" }

/-- A concrete build used by witnesses. -/
def buildW : Build :=
  { JobName := "job", StoragePath := "logs/job/35", BuildID := 35, Bucket := BucketName }

/-- A concrete log line extractor used by witnesses. -/
def chkW : List String → Option String :=
  fun toks => toks.head?

/-- Witness for C5 at a concrete world whose reader open fails. -/
theorem claim_c5_witness :
    (buildW.ParseLog worldOpenFail chkW).closes = 1 ∧
    buildW.ParseLog worldOpenFail chkW =
      { logs := [], err := some "no such object", closes := 1 } :=
  ⟨(claim_c5_parseLog_release worldOpenFail buildW chkW).1,
   (claim_c5_parseLog_release worldOpenFail buildW chkW).2 "no such object" rfl⟩

/-- A reader that delivers one line and then fails mid stream. -/
def readerMidFail : GcsReader :=
  { lines := ["ERROR disk full"], readErr := some "read failure" }

/-- A world whose log reader fails mid stream after one line. -/
def worldMidFail : World :=
  { exist := fun _ _ => false, listDirectChildren := fun _ _ => [],
    read := fun _ _ => .error "no such object",
    newReader := fun _ _ => .ok readerMidFail,
    decodeStarted := fun _ => .error "bad json",
    decodeFinished := fun _ => .error "bad json" }

/-- An extractor keeping the first token of lines whose first token is the
word ERROR. -/
def chkErr : List String → Option String :=
  fun toks => if toks.head? = some "ERROR" then toks.head? else none

/-- Counterexample to claim C4 as stated: on a stream that fails mid scan
(readErr is a read failure) ParseLog reports no error at all; the read error
is swallowed into a nil error result instead of being returned. -/
theorem claim_c4_counterexample :
    readerMidFail.readErr = some "read failure" ∧
    buildW.ParseLog worldMidFail chkErr =
      { logs := ["ERROR"], err := none, closes := 1 } := by
  constructor
  · rfl
  · decide

/-- Claim C4 amended: when a read error occurs partway through scanning,
ParseLog stops scanning at the failure and returns the fragments collected
before it, but the read error itself is not propagated: the error result is
nil (only a failure to open the reader is ever returned). -/
theorem claim_c4_amended_read_error_swallowed (w : World) (b : Build)
    (checkLog : List String → Option String) (f : GcsReader) (e : String)
    (hopen : w.newReader b.Bucket b.GetBuildLogPath = .ok f)
    (herr : f.readErr = some e) :
    (b.ParseLog w checkLog).err = none ∧
    (b.ParseLog w checkLog).logs =
      f.lines.filterMap (fun line => checkLog (goFields line)) := by
  unfold Build.ParseLog
  rw [hopen]
  exact ⟨rfl, appendLoop_eq_filterMap _ _⟩

/-- Witness for the amended C4 at the concrete mid stream failure world. -/
theorem claim_c4_witness :
    (buildW.ParseLog worldMidFail chkErr).err = none ∧
    (buildW.ParseLog worldMidFail chkErr).logs =
      readerMidFail.lines.filterMap (fun line => chkErr (goFields line)) :=
  claim_c4_amended_read_error_swallowed worldMidFail buildW chkErr readerMidFail
    "read failure" rfl rfl

/-- Claim C8: when no read error occurs, ParseLog returns, in line encounter
order, exactly the non empty results of checkLog applied to each line split
on white space into tokens, with no error; a zero length log yields an empty
sequence and no error. -/
theorem claim_c8_parseLog_scan (w : World) (b : Build)
    (checkLog : List String → Option String) (f : GcsReader)
    (hopen : w.newReader b.Bucket b.GetBuildLogPath = .ok f)
    (hok : f.readErr = none) :
    (b.ParseLog w checkLog).logs =
      f.lines.filterMap (fun line => checkLog (goFields line)) ∧
    (b.ParseLog w checkLog).err = none ∧
    (f.lines = [] → b.ParseLog w checkLog = { logs := [], err := none, closes := 1 }) := by
  unfold Build.ParseLog
  rw [hopen]
  refine ⟨appendLoop_eq_filterMap _ _, rfl, ?_⟩
  intro hl
  show ({ logs := appendLoop (fun line => checkLog (goFields line)) f.lines,
          err := none, closes := 1 } : ParseLogResult) =
    { logs := [], err := none, closes := 1 }
  rw [hl]
  rfl

/-- A reader holding the log lines of the worked example in the spec. -/
def readerOk : GcsReader :=
  { lines := ["build ok", "ERROR disk full", "build ok"], readErr := none }

/-- A world serving the worked example log without errors. -/
def worldOk : World :=
  { exist := fun _ _ => false, listDirectChildren := fun _ _ => [],
    read := fun _ _ => .error "no such object",
    newReader := fun _ _ => .ok readerOk,
    decodeStarted := fun _ => .error "bad json",
    decodeFinished := fun _ => .error "bad json" }

/-- The extractor of the worked example: the line, rebuilt from its tokens,
when the first token is the word ERROR. -/
def chkVerbatim : List String → Option String :=
  fun toks =>
    if toks.head? = some "ERROR" then some (String.intercalate " " toks) else none

/-- Witness for C8 on the worked example of the spec: exactly the line whose
first token is ERROR is kept, in order. -/
theorem claim_c8_witness :
    ((buildW.ParseLog worldOk chkVerbatim).logs =
        readerOk.lines.filterMap (fun line => chkVerbatim (goFields line)) ∧
      (buildW.ParseLog worldOk chkVerbatim).err = none ∧
      (readerOk.lines = [] →
        buildW.ParseLog worldOk chkVerbatim = { logs := [], err := none, closes := 1 })) ∧
    (buildW.ParseLog worldOk chkVerbatim).logs = ["ERROR disk full"] :=
  ⟨claim_c8_parseLog_scan worldOk buildW chkVerbatim readerOk rfl rfl, by decide⟩

theorem overrideRead_ne (w : World) (p q : String) (r : Except String String)
    (bucket : String) (h : q ≠ p) :
    (w.overrideRead p r).read bucket q = w.read bucket q := by
  unfold World.overrideRead
  simp [h]

/-- Claim C6: GetStartedTime and GetFinishedTime read the same underlying
storage object, storagePath slash finished.json; GetStartedTime does not
read the started.json marker (overriding the contents served at the
started.json path does not change its result), and only the decode target
schema differs between the two accessors. -/
theorem claim_c6_shared_marker_object (b : Build) :
    b.getStartedTimeReadPath = b.getFinishedTimeReadPath ∧
    b.getStartedTimeReadPath = goJoin [b.StoragePath, FinishedJSON] ∧
    (∀ (w : World) (r : Except String String),
      goJoin [b.StoragePath, StartedJSON] ≠ b.getStartedTimeReadPath →
      b.GetStartedTime (w.overrideRead (goJoin [b.StoragePath, StartedJSON]) r) =
        b.GetStartedTime w) := by
  refine ⟨rfl, rfl, ?_⟩
  intro w r hne
  unfold Build.GetStartedTime unmarshalJSONStarted
  rw [overrideRead_ne w (goJoin [b.StoragePath, StartedJSON]) b.getStartedTimeReadPath r
    BucketName (fun h => hne h.symm)]
  rfl

/-- Witness for C6 at a concrete build, world and override. -/
theorem claim_c6_witness :
    buildW.getStartedTimeReadPath = buildW.getFinishedTimeReadPath ∧
    buildW.getStartedTimeReadPath = goJoin [buildW.StoragePath, FinishedJSON] ∧
    buildW.GetStartedTime
        (worldOk.overrideRead (goJoin [buildW.StoragePath, StartedJSON]) (.ok "junk")) =
      buildW.GetStartedTime worldOk :=
  ⟨(claim_c6_shared_marker_object buildW).1,
   (claim_c6_shared_marker_object buildW).2.1,
   (claim_c6_shared_marker_object buildW).2.2 worldOk (.ok "junk") (by decide)⟩

/-- Claim C2 amended: GetBuilds yields, in listing order, exactly one Build
per child segment whose final path component parses with Atoi semantics (an
optional sign followed by digits, so negative integers included), and
silently skips without error every segment that fails to parse; in
particular the segment -1 parses and yields a build id of -1. -/
theorem claim_c2_amended_getBuilds (w : World) (j : Job) :
    j.GetBuilds w =
      (w.listDirectChildren j.Bucket j.StoragePath).filterMap
        (fun p => match getBuildIDFromBuildPath p with
          | .error _ => none
          | .ok buildID => some (j.NewBuild buildID)) ∧
    getBuildIDFromBuildPath "-1" = .ok (-1) :=
  ⟨appendLoop_eq_filterMap _ _, by decide⟩

/-- A world listing a single child whose last path component is -1. -/
def worldNegChild : World :=
  { exist := fun _ _ => false,
    listDirectChildren := fun _ _ => ["logs/job/-1"],
    read := fun _ _ => .error "no such object",
    newReader := fun _ _ => .error "no such object",
    decodeStarted := fun _ => .error "bad json",
    decodeFinished := fun _ => .error "bad json" }

/-- Counterexample to claim C2 as stated: a child segment whose final path
component parses as the negative integer -1 does yield a Build (with
BuildID -1) instead of being skipped. -/
theorem claim_c2_counterexample :
    jobW.GetBuilds worldNegChild =
      [{ JobName := "job", StoragePath := "logs/job/-1", BuildID := -1,
         Bucket := BucketName }] := by
  decide

theorem buildLess_false_of_left_err (w : World) (a b : Build)
    (h : (a.GetStartedTime w).2 ≠ none) : buildLess w a b = false := by
  unfold buildLess
  rw [if_pos h]

theorem buildLess_true_of_right_err (w : World) (a b : Build)
    (ha : (a.GetStartedTime w).2 = none) (hb : (b.GetStartedTime w).2 ≠ none) :
    buildLess w a b = true := by
  unfold buildLess
  rw [if_neg (by simp [ha]), if_pos hb]

theorem buildLess_eq_compare (w : World) (a b : Build)
    (ha : (a.GetStartedTime w).2 = none) (hb : (b.GetStartedTime w).2 = none) :
    buildLess w a b = decide ((a.GetStartedTime w).1 > (b.GetStartedTime w).1) := by
  unfold buildLess
  rw [if_neg (by simp [ha]), if_neg (by simp [hb])]

theorem buildLess_rel_trans (w : World) (a b c : Build)
    (h1 : buildLess w b a = false) (h2 : buildLess w c b = false) :
    buildLess w c a = false := by
  by_cases hc : (c.GetStartedTime w).2 = none
  · by_cases hb : (b.GetStartedTime w).2 = none
    · by_cases ha : (a.GetStartedTime w).2 = none
      · rw [buildLess_eq_compare w c a hc ha]
        rw [buildLess_eq_compare w b a hb ha] at h1
        rw [buildLess_eq_compare w c b hc hb] at h2
        simp at h1 h2 ⊢
        omega
      · exact absurd (buildLess_true_of_right_err w b a hb ha) (by rw [h1]; simp)
    · exact absurd (buildLess_true_of_right_err w c b hc hb) (by rw [h2]; simp)
  · exact buildLess_false_of_left_err w c a hc

theorem buildLess_rel_total (w : World) (a b : Build) :
    buildLess w b a = false ∨ buildLess w a b = false := by
  by_cases ha : (a.GetStartedTime w).2 = none
  · by_cases hb : (b.GetStartedTime w).2 = none
    · rw [buildLess_eq_compare w b a hb ha, buildLess_eq_compare w a b ha hb]
      simp
      omega
    · left
      exact buildLess_false_of_left_err w b a hb
  · right
    exact buildLess_false_of_left_err w a b ha

/-- Claim C3: GetLatestBuilds on a count between zero and the number of
finished builds returns exactly count builds, all with an existing finished
marker, ordered descending by started timestamp under the sort.Slice
comparison in which a left element whose timestamp cannot be obtained is not
less than the right element and a left element with a readable timestamp
sorts before a right element whose timestamp cannot be obtained; when fewer
than count finished builds exist, all of them are returned. -/
theorem claim_c3_getLatestBuilds (w : World) (j : Job) :
    (∀ a b : Build, (a.GetStartedTime w).2 ≠ none → buildLess w a b = false) ∧
    (∀ a b : Build, (a.GetStartedTime w).2 = none → (b.GetStartedTime w).2 ≠ none →
      buildLess w a b = true) ∧
    (∀ count : Int, 0 ≤ count → count ≤ ((j.GetFinishedBuilds w).length : Int) →
      ∃ l, j.GetLatestBuilds w count = .ok l ∧ (l.length : Int) = count ∧
        (∀ b ∈ l, b.IsFinished w = true) ∧
        l.Pairwise (fun a b => buildLess w b a = false)) ∧
    (∀ count : Int, ((j.GetFinishedBuilds w).length : Int) < count →
      ∃ l, j.GetLatestBuilds w count = .ok l ∧ l.Perm (j.GetFinishedBuilds w) ∧
        (∀ b ∈ l, b.IsFinished w = true) ∧
        l.Pairwise (fun a b => buildLess w b a = false)) := by
  letI : IsTrans Build (fun a b => buildLess w b a = false) :=
    ⟨fun a b c h1 h2 => buildLess_rel_trans w a b c h1 h2⟩
  letI : IsTotal Build (fun a b => buildLess w b a = false) :=
    ⟨fun a b => buildLess_rel_total w a b⟩
  have hsorted :
      ((j.GetFinishedBuilds w).insertionSort
        (fun a b => buildLess w b a = false)).Pairwise
          (fun a b => buildLess w b a = false) :=
    List.sorted_insertionSort (fun a b => buildLess w b a = false) (j.GetFinishedBuilds w)
  have hperm :=
    List.perm_insertionSort (fun a b => buildLess w b a = false) (j.GetFinishedBuilds w)
  have hlen :
      ((j.GetFinishedBuilds w).insertionSort
        (fun a b => buildLess w b a = false)).length = (j.GetFinishedBuilds w).length :=
    hperm.length_eq
  have hmem : ∀ b ∈ (j.GetFinishedBuilds w).insertionSort
      (fun a b => buildLess w b a = false), b.IsFinished w = true := by
    intro b hb
    have hbf : b ∈ (j.GetBuilds w).filter (fun x => x.IsFinished w) := hperm.mem_iff.mp hb
    have hp := List.of_mem_filter hbf
    exact hp
  refine ⟨fun a b h => buildLess_false_of_left_err w a b h,
    fun a b ha hb => buildLess_true_of_right_err w a b ha hb, ?_, ?_⟩
  · intro count h0 hcount
    unfold Job.GetLatestBuilds
    rw [if_neg (by omega), if_neg (by omega)]
    refine ⟨_, rfl, ?_, ?_, ?_⟩
    · rw [List.length_take]
      omega
    · intro b hb
      exact hmem b (List.mem_of_mem_take hb)
    · exact hsorted.sublist (List.take_sublist _ _)
  · intro count hlt
    unfold Job.GetLatestBuilds
    rw [if_pos (by omega)]
    exact ⟨_, rfl, hperm, hmem, hsorted⟩

/-- A world with two finished builds under the witness job, started at epoch
seconds one hundred and two hundred. -/
def worldBuilds : World :=
  { exist := fun _ _ => true,
    listDirectChildren := fun _ _ => ["logs/job/1", "logs/job/2"],
    read := fun _ p => .ok p,
    newReader := fun _ _ => .error "no reader",
    decodeStarted := fun c =>
      if c = "logs/job/1/finished.json" then
        .ok { Timestamp := 100, RepoVersion := "", Node := "", Pull := "", Repos := [] }
      else if c = "logs/job/2/finished.json" then
        .ok { Timestamp := 200, RepoVersion := "", Node := "", Pull := "", Repos := [] }
      else .error "bad json",
    decodeFinished := fun _ => .error "bad json" }

/-- Witness for C3: one latest build out of two finished ones. -/
theorem claim_c3_witness :
    ∃ l, jobW.GetLatestBuilds worldBuilds 1 = .ok l ∧ ((l.length : Int) = 1) ∧
      (∀ b ∈ l, b.IsFinished worldBuilds = true) ∧
      l.Pairwise (fun a b => buildLess worldBuilds b a = false) :=
  (claim_c3_getLatestBuilds worldBuilds jobW).2.2.1 1 (by decide) (by decide)

/-- Claim C10: GetLatestBuilds is only total for non negative counts: for
every negative count the guard comparing the number of finished builds
against count does not take the return all branch, and the slice truncation
with a negative bound faults (modelled as an error result), so callers must
establish that count is non negative. -/
theorem claim_c10_negative_count_panics (w : World) (j : Job) (count : Int)
    (h : count < 0) :
    j.GetLatestBuilds w count = .error "slice bounds out of range" := by
  unfold Job.GetLatestBuilds
  rw [if_neg (by omega), if_pos h]

/-- Witness for C10 at count minus one. -/
theorem claim_c10_witness :
    jobW.GetLatestBuilds worldOpenFail (-1) = .error "slice bounds out of range" :=
  claim_c10_negative_count_panics worldOpenFail jobW (-1) (by decide)

end Prow
